import Mathlib

/-!
Verification of `main1.py` (Google Drive shared-files checker and permission
revoker).  The Python source is shallowly embedded: remote effects (the Drive
service's delete endpoint, `time.sleep`) are injected as function parameters,
exceptions are modelled with `Except`, and the calls a run issues are returned
as explicit logs so that claims about "how many remote calls happen" become
statements about those logs.
-/

namespace DriveRevoker

/-! ## Constants (lines 18-20 of the source) -/

def BASE_DELAY : Nat := 1

def MAX_DELAY : Nat := 32

def MAX_RETRIES : Nat := 5

/-! ## Python runtime errors

`PyErr.http s` models `googleapiclient.errors.HttpError` with response status
`s`.  `PyErr.nameErr` models Python's `NameError`: the source module calls
`time.sleep` (line 34) but never imports `time` (lines 1-9), so evaluating the
name `time` raises `NameError` at run time. -/

inductive PyErr where
  | http (status : Nat)
  | nameErr
deriving DecidableEq, Repr

instance {ε α : Type} [DecidableEq ε] [DecidableEq α] :
    DecidableEq (Except ε α) := fun x y =>
  match x, y with
  | .ok a, .ok b =>
    if h : a = b then .isTrue (by rw [h])
    else .isFalse (fun hc => h (by cases hc; rfl))
  | .error a, .error b =>
    if h : a = b then .isTrue (by rw [h])
    else .isFalse (fun hc => h (by cases hc; rfl))
  | .ok _, .error _ => .isFalse (fun hc => Except.noConfusion hc)
  | .error _, .ok _ => .isFalse (fun hc => Except.noConfusion hc)

/-- Status codes treated as transient (line 29 of the source). -/
def transientCodes : List Nat := [429, 500, 503]

/-- Behaviour of the expression `time.sleep(t)` in the module as written:
the `time` module is not imported, so the lookup raises `NameError`. -/
def timeSleep : Nat → Except PyErr Unit := fun _ => .error .nameErr

/-- Modelled from the spec: the Retry Wrapper's backoff sleep as intended
by spec section 4.1 (wait and retry), i.e. the sleep with the time module
made available.  Used to state what the wrapper would do were the module
present. -/
def sleepOk : Nat → Except PyErr Unit := fun _ => .ok ()

/-- The retry loop of `exponential_backoff` (source lines 23-36).  `op a` is
the wrapped call's outcome on attempt number `a`; `sleep` is the behaviour of
`time.sleep`; `delay` is the local variable `delay` (set once to `BASE_DELAY`,
line 24, and never updated).  `remaining` counts the attempts after the
current one, so the call with `attempt = 0` uses
`remaining = MAX_RETRIES - 1`; `remaining = 0` is the last attempt, where a
transient failure is re-raised bare (lines 30-31).  The second component
records the completed backoff sleeps, in order. -/
def backoffLoop {α : Type} (op : Nat → Except PyErr α)
    (sleep : Nat → Except PyErr Unit) (delay : Nat) :
    Nat → Nat → Except PyErr α × List Nat
  | attempt, remaining =>
    match op attempt with
    | .ok v => (.ok v, [])
    | .error (.http s) =>
      if s ∈ transientCodes then
        match remaining with
        | 0 => (.error (.http s), [])
        | r + 1 =>
          let sleep_time := min (delay * 2 ^ attempt) MAX_DELAY
          match sleep sleep_time with
          | .error e => (.error e, [])
          | .ok _ =>
            let out := backoffLoop op sleep delay (attempt + 1) r
            (out.1, sleep_time :: out.2)
      else (.error (.http s), [])
    | .error e => (.error e, [])

/-- `exponential_backoff` as the module actually behaves (source lines
22-37): the sleep raises `NameError` because `time` is unbound. -/
def exponential_backoff {α : Type} (op : Nat → Except PyErr α) :
    Except PyErr α × List Nat :=
  backoffLoop op timeSleep BASE_DELAY 0 (MAX_RETRIES - 1)

/-- Modelled from the spec: the wrapper with a working sleep (spec §4.1),
i.e. the source's `exponential_backoff` with `import time` present. -/
def exponential_backoff_spec {α : Type} (op : Nat → Except PyErr α) :
    Except PyErr α × List Nat :=
  backoffLoop op sleepOk BASE_DELAY 0 (MAX_RETRIES - 1)

/-! ## Domain classifier (source lines 52-58) -/

/-- Python `s.lower()` (the source's emails are ASCII). -/
def pyLower (s : String) : String := String.mk (s.data.map Char.toLower)

/-- Python `s.endswith(suffix)`. -/
def pyEndswith (s suffix : String) : Bool := List.isSuffixOf suffix.data s.data

/-- `is_allbirds_email` (source line 58): case-insensitive suffix match
against the two hard-coded organization domains. -/
def is_allbirds_email (email : String) : Bool :=
  pyEndswith (pyLower email) "@domain.com" ||
    pyEndswith (pyLower email) "@ext.domain.com"

/-- The organization domain suffixes, as the spec describes them
(§4.2 "one or more configured organization domain suffixes").  Used to state
the refinement between the spec's wording and `is_allbirds_email`. -/
def orgSuffixes : List String := ["@domain.com", "@ext.domain.com"]

/-! ## Data model -/

/-- A permission entry of an item, as consumed by `process_file` (source
lines 175-186): `permission['id']` is indexed directly, `permission.get('type')`
and `permission.get('emailAddress', '')` may be absent. -/
structure Permission where
  id : String
  type : Option String
  emailAddress : Option String
deriving DecidableEq, Repr

/-- A file or folder item, as consumed by the traversal and by
`process_file`: `item['id']` and `item['mimeType']` are indexed directly
(lines 143, 147, 168), `name`, `webViewLink` and `permissions` are read with
defaults (lines 169, 170, 175). -/
structure DriveItem where
  id : String
  name : Option String
  mimeType : String
  webViewLink : Option String
  permissions : List Permission
deriving DecidableEq, Repr

/-- The per-file report dictionary built at source lines 188-193. -/
structure FileReport where
  name : String
  link : String
  external_emails : String
  permissions_revoked : Bool
deriving DecidableEq, Repr

/-! ## Permission auditor (source lines 159-193)

The Drive delete endpoint is injected as
`del : fileId → permissionId → Except PyErr Unit`; the second component of
each result is the log of delete calls issued (pairs `(fileId, permissionId)`),
in order, including a final failing call. -/

/-- The test at source line 177:
`permission.get('type') == 'user' and not is_allbirds_email(email)`. -/
def isExternalUser (p : Permission) : Bool :=
  p.type == some "user" && !is_allbirds_email (p.emailAddress.getD "")

/-- The `for permission in file.get('permissions', [])` loop of
`process_file` (source lines 175-186), threading the `external_emails` list
and the `permissions_revoked` flag.  A failing delete call aborts the loop
with that error (Python exception propagation). -/
def processPerms (del : String → String → Except PyErr Unit)
    (fileId : String) (revoke : Bool) :
    List Permission → List String → Bool →
      Except PyErr (List String × Bool) × List (String × String)
  | [], exts, revoked => (.ok (exts, revoked), [])
  | p :: rest, exts, revoked =>
    if isExternalUser p then
      let exts' := exts ++ [p.emailAddress.getD ""]
      if revoke then
        match del fileId p.id with
        | .error e => (.error e, [(fileId, p.id)])
        | .ok _ =>
          let out := processPerms del fileId revoke rest exts' true
          (out.1, (fileId, p.id) :: out.2)
      else processPerms del fileId revoke rest exts' revoked
    else processPerms del fileId revoke rest exts revoked

/-- `process_file` (source lines 159-193): audits one file's permissions and
builds its report; the second component is the log of delete calls issued. -/
def process_file (del : String → String → Except PyErr Unit)
    (file : DriveItem) (revoke_permissions : Bool) :
    Except PyErr FileReport × List (String × String) :=
  let out := processPerms del file.id revoke_permissions file.permissions [] false
  (match out.1 with
   | .ok (exts, revoked) =>
     .ok { name := file.name.getD "Unknown"
           link := file.webViewLink.getD "Unknown"
           external_emails := String.intercalate ", " exts
           permissions_revoked := revoked }
   | .error e => .error e, out.2)

/-- A delete endpoint that always succeeds (the remote service healthy). -/
def delOk : String → String → Except PyErr Unit := fun _ _ => .ok ()

/-! ## Paginated listings (source lines 61-126)

A paginated remote listing is modelled as the list of pages the service
returns, in order: each `service.files().list(...).execute()` consumes the
next page, and the response carries a `nextPageToken` exactly when further
pages remain. -/

/-- The `while True` loop of `get_shared_files_and_folders` (source lines
75-92): accumulate the page, then return the first `limit` items if the
(truthy) limit is reached, else follow the continuation token. -/
def sharedListLoop (limit : Nat) :
    List (List DriveItem) → List DriveItem → List DriveItem
  | [], all_items => all_items
  | page :: rest, all_items =>
    let acc := all_items ++ page
    if limit ≠ 0 ∧ limit ≤ acc.length then acc.take limit
    else sharedListLoop limit rest acc

/-- `get_shared_files_and_folders` (source lines 61-94). -/
def get_shared_files_and_folders (pages : List (List DriveItem))
    (limit : Nat) : List DriveItem :=
  sharedListLoop limit pages []

/-- The `while True` loop of `get_folder_contents` (source lines 110-124):
no limit, every continuation token is followed. -/
def folderListLoop : List (List DriveItem) → List DriveItem → List DriveItem
  | [], all_items => all_items
  | page :: rest, all_items => folderListLoop rest (all_items ++ page)

/-- `get_folder_contents` (source lines 97-126). -/
def get_folder_contents (pages : List (List DriveItem)) : List DriveItem :=
  folderListLoop pages []

/-! ## Recursive traversal (source lines 129-156)

The folder service is a finite association list `srv` from folder id to that
folder's contents (the already-depaginated result of `get_folder_contents`);
a folder with no entry lists as empty.  The traversal is instrumented with a
trace of events: `descend id` records a `get_folder_contents` call for folder
`id`, `appendFile id` records a file appended to `all_files`.  Because the
Python recursion terminates only by growing the shared visited set, the
embedding takes a fuel bound on folder-descent nesting; `none` means the fuel
ran out (the termination theorem shows a computable fuel always suffices). -/

inductive TraceEv where
  | descend (folderId : String)
  | appendFile (fileId : String)
deriving DecidableEq, Repr

def FOLDER_MIME : String := "application/vnd.google-apps.folder"

/-- Contents of folder `folderId` according to the service `srv`. -/
def folderContents (srv : List (String × List DriveItem))
    (folderId : String) : List DriveItem :=
  (((srv.find? (fun e => e.1 == folderId)).map Prod.snd).getD [])

/-- The `for item in items` loop of `process_items_recursively` (source
lines 142-156).  `all_files` is the accumulator of the current invocation,
`processed_ids` the shared visited set (mutated in place in the source, so
threaded through and returned).  One unit of fuel is consumed per loop step
so the recursion is structural in the fuel.
Result: `(all_files, processed_ids, trace)`. -/
def travLoop (srv : List (String × List DriveItem)) (limit : Nat) :
    Nat → List DriveItem → List DriveItem → Finset String →
      Option (List DriveItem × Finset String × List TraceEv)
  | _, [], all_files, processed => some (all_files, processed, [])
  | 0, _ :: _, _, _ => none
  | fuel + 1, item :: rest, all_files, processed =>
    if item.id ∈ processed then travLoop srv limit fuel rest all_files processed
    else
      let processed1 := insert item.id processed
      if item.mimeType = FOLDER_MIME then
        match travLoop srv limit fuel (folderContents srv item.id) [] processed1 with
        | none => none
        | some (sub, processed2, tr1) =>
          let acc := all_files ++ sub
          if limit ≠ 0 ∧ limit ≤ acc.length then
            some (acc.take limit, processed2, .descend item.id :: tr1)
          else
            match travLoop srv limit fuel rest acc processed2 with
            | none => none
            | some (res, processed3, tr2) =>
              some (res, processed3, .descend item.id :: (tr1 ++ tr2))
      else
        let acc := all_files ++ [item]
        if limit ≠ 0 ∧ limit ≤ acc.length then
          some (acc.take limit, processed1, [.appendFile item.id])
        else
          match travLoop srv limit fuel rest acc processed1 with
          | none => none
          | some (res, processed3, tr2) =>
            some (res, processed3, .appendFile item.id :: tr2)

/-- `process_items_recursively` (source lines 129-156): starts the loop with
an empty `all_files` accumulator. -/
def process_items_recursively (srv : List (String × List DriveItem))
    (fuel : Nat) (items : List DriveItem) (processed_ids : Finset String)
    (limit : Nat) :
    Option (List DriveItem × Finset String × List TraceEv) :=
  travLoop srv limit fuel items [] processed_ids

/-- Identifiers of a list of items, as a finite set. -/
def idsOf (l : List DriveItem) : Finset String :=
  (l.map DriveItem.id).toFinset

/-- All identifiers occurring in the folder service's listings. -/
def srvIds (srv : List (String × List DriveItem)) : Finset String :=
  idsOf (srv.map Prod.snd).flatten

/-- Loop steps still chargeable to the not-yet-visited identifiers of `U`:
each unvisited id may be processed once, and if it is a folder its listed
contents are walked once. -/
def travWeight (srv : List (String × List DriveItem)) (U : Finset String)
    (processed : Finset String) : Nat :=
  Finset.sum (U \ processed) (fun x => 1 + (folderContents srv x).length)

/-- A computable fuel bound sufficient for the traversal to complete: one
step per root item plus the weight of every identifier in sight. -/
def sufficientFuel (srv : List (String × List DriveItem))
    (items : List DriveItem) : Nat :=
  items.length + travWeight srv (idsOf items ∪ srvIds srv) ∅ + 1

/-- The folder identifiers of the `get_folder_contents` calls in a trace. -/
def descendsOf (tr : List TraceEv) : List String :=
  tr.filterMap (fun e => match e with
    | .descend fid => some fid
    | .appendFile _ => none)

/-- Checks that every `descend` event in the trace is preceded by fewer than
`limit` `appendFile` events, i.e. that no folder listing is issued after the
accumulated file count has already reached the limit; `seen` counts the
appends so far. -/
def noLateDescent (limit : Nat) : Nat → List TraceEv → Bool
  | _, [] => true
  | seen, .appendFile _ :: rest => noLateDescent limit (seen + 1) rest
  | seen, .descend _ :: rest =>
    decide (seen < limit) && noLateDescent limit seen rest

/-! ## The main audit loop (source lines 218-245)

`main` processes the traversal's files in order with the
`exponential_backoff`-wrapped `process_file`; the first exception aborts the
list comprehension at line 241.  `main`'s `try`/`except HttpError` catches an
`HttpError` and logs it, in which case `export_to_spreadsheet` is never
reached and no report is written; any other exception (e.g. `NameError`)
escapes `main`.  Result of `mainRun`: first component `.ok (some reports)`
means the report was written, `.ok none` means an `HttpError` was caught and
the run ended with no report, `.error e` means the run crashed with an
uncaught exception; second component is the log of all delete calls issued. -/

/-- One file processed through the wrapper, as at source line 241: the
wrapped callable re-runs `process_file` on retry, but with the module as
written no retry ever completes a sleep, so the delete calls issued are those
of the first attempt. -/
def wrappedProcessFile (del : String → String → Except PyErr Unit)
    (file : DriveItem) (revoke : Bool) :
    Except PyErr FileReport × List (String × String) :=
  ((exponential_backoff (fun _ => (process_file del file revoke).1)).1,
    (process_file del file revoke).2)

/-- The list comprehension `[process_file(service, file, revoke_permissions)
for file in all_files]` (source line 241): stops at the first exception. -/
def mainLoop (del : String → String → Except PyErr Unit) (revoke : Bool) :
    List DriveItem → Except PyErr (List FileReport) × List (String × String)
  | [] => (.ok [], [])
  | file :: rest =>
    let out := wrappedProcessFile del file revoke
    match out.1 with
    | .error e => (.error e, out.2)
    | .ok rep =>
      let outs := mainLoop del revoke rest
      (match outs.1 with
       | .ok reps => .ok (rep :: reps)
       | .error e => .error e, out.2 ++ outs.2)

/-- The body of `main` from line 241 on, with the surrounding
`try`/`except HttpError` (source lines 233-245). -/
def mainRun (del : String → String → Except PyErr Unit)
    (files : List DriveItem) (revoke : Bool) :
    Except PyErr (Option (List FileReport)) × List (String × String) :=
  let out := mainLoop del revoke files
  (match out.1 with
   | .ok reports => .ok (some reports)
   | .error (.http _) => .ok none
   | .error e => .error e, out.2)

/-! ## Concrete sample inputs used by the claim theorems -/

/-- The file of the spec's §8 scenario, as written there: two `user`
permissions, `a@external.com` and `b@org.com`. -/
def fileScenario : DriveItem :=
  { id := "f1", name := none, mimeType := "application/pdf",
    webViewLink := none,
    permissions := [{ id := "p1", type := some "user", emailAddress := some "a@external.com" },
                    { id := "p2", type := some "user", emailAddress := some "b@org.com" }] }

/-- The scenario file with the internal grantee on a domain the source's
classifier actually recognizes (`@domain.com`, source line 58). -/
def fileScenarioAmended : DriveItem :=
  { id := "f1", name := none, mimeType := "application/pdf",
    webViewLink := none,
    permissions := [{ id := "p1", type := some "user", emailAddress := some "a@external.com" },
                    { id := "p2", type := some "user", emailAddress := some "b@domain.com" }] }

/-- An operation failing transiently on attempts 0 and 1, then succeeding. -/
def opTransientTwice : Nat → Except PyErr Nat :=
  fun a => if a < 2 then .error (.http 429) else .ok 42

/-- An operation failing transiently on every attempt. -/
def opAlways429 : Nat → Except PyErr Nat := fun _ => .error (.http 429)

/-- An operation failing transiently with 429 on attempts 0-3 and with 503 on
the final attempt: distinguishes "final failure" from the earlier ones. -/
def opExhaust : Nat → Except PyErr Nat :=
  fun a => if a < 4 then .error (.http 429) else .error (.http 503)

/-- An operation failing with a non-transient 404 on every attempt. -/
def opNotFound : Nat → Except PyErr Nat := fun _ => .error (.http 404)

/-- A delete endpoint that fails with a non-transient 404 exactly on
permission `p1` of file `f1`. -/
def del404 : String → String → Except PyErr Unit :=
  fun f p => if f = "f1" ∧ p = "p1" then .error (.http 404) else .ok ()

/-- A file with two external grants whose first delete call will fail under
`del404`. -/
def gFail1 : DriveItem :=
  { id := "f1", name := none, mimeType := "application/pdf",
    webViewLink := none,
    permissions := [{ id := "p1", type := some "user", emailAddress := some "a@external.com" },
                    { id := "p2", type := some "user", emailAddress := some "c@external.com" }] }

/-- A second file with one external grant, queued after `gFail1`. -/
def gFail2 : DriveItem :=
  { id := "f2", name := none, mimeType := "application/pdf",
    webViewLink := none,
    permissions := [{ id := "p3", type := some "user", emailAddress := some "d@external.com" }] }

/-- A file whose only `user` permission carries no email address, alongside
one ordinary external grant. -/
def gNoEmail : DriveItem :=
  { id := "fx", name := none, mimeType := "application/pdf",
    webViewLink := none,
    permissions := [{ id := "pa", type := some "user", emailAddress := some "a@external.com" },
                    { id := "pb", type := some "user", emailAddress := none }] }

/-- A file whose grants are all internal. -/
def gInternal : DriveItem :=
  { id := "fi", name := some "internal", mimeType := "application/pdf",
    webViewLink := some "li",
    permissions := [{ id := "pi", type := some "user", emailAddress := some "x@domain.com" }] }

/-- A plain file item with no permissions, for traversal examples. -/
def plainFile (i : String) : DriveItem :=
  { id := i, name := none, mimeType := "application/pdf",
    webViewLink := none, permissions := [] }

/-- A folder item, for traversal examples. -/
def plainFolder (i : String) : DriveItem :=
  { id := i, name := none, mimeType := FOLDER_MIME,
    webViewLink := none, permissions := [] }

/-- A nested folder service: folder `A` contains file `f2` and folder `B`;
folder `B` contains file `f3`. -/
def srvNested : List (String × List DriveItem) :=
  [("A", [plainFile "f2", plainFolder "B"]), ("B", [plainFile "f3"])]

/-- Root items for the nested-service example: file `f1` then folder `A`. -/
def itemsNested : List DriveItem := [plainFile "f1", plainFolder "A"]

/-! ## Lemmas about the permission auditor -/

/-- In dry-run mode the permission loop issues no delete call and collects
exactly the external grants' emails, in order, leaving the revoked flag as it
was. -/
theorem processPerms_dry (del : String → String → Except PyErr Unit)
    (fid : String) (perms : List Permission) (exts : List String)
    (revoked : Bool) :
    processPerms del fid false perms exts revoked =
      (.ok (exts ++ (perms.filter isExternalUser).map
          (fun p => p.emailAddress.getD ""), revoked), []) := by
  induction perms generalizing exts with
  | nil => simp [processPerms]
  | cons p rest ih =>
    by_cases h : isExternalUser p
    · simp [processPerms, h, ih, List.filter_cons]
    · simp [processPerms, h, ih, List.filter_cons]

/-- With a healthy delete endpoint and revocation enabled, the permission
loop issues exactly one delete call per external grant, in order, collects
their emails, and reports revocation exactly when some external grant
exists. -/
theorem processPerms_revokeOk (fid : String) (perms : List Permission)
    (exts : List String) (revoked : Bool) :
    processPerms delOk fid true perms exts revoked =
      (.ok (exts ++ (perms.filter isExternalUser).map
          (fun p => p.emailAddress.getD ""),
        revoked || perms.any isExternalUser),
       (perms.filter isExternalUser).map (fun p => (fid, p.id))) := by
  induction perms generalizing exts revoked with
  | nil => simp [processPerms]
  | cons p rest ih =>
    by_cases h : isExternalUser p
    · simp [processPerms, h, ih, List.filter_cons, delOk, List.any_cons]
    · simp [processPerms, h, ih, List.filter_cons, List.any_cons]

/-- A file with no external grant causes no delete call and keeps the
accumulators unchanged, for any delete endpoint and either mode. -/
theorem processPerms_noExt (del : String → String → Except PyErr Unit)
    (fid : String) (revoke : Bool) (perms : List Permission)
    (exts : List String) (revoked : Bool)
    (hf : perms.filter isExternalUser = []) :
    processPerms del fid revoke perms exts revoked =
      (.ok (exts, revoked), []) := by
  induction perms with
  | nil => simp [processPerms]
  | cons p rest ih =>
    rw [List.filter_cons] at hf
    by_cases h : isExternalUser p
    · simp [h] at hf
    · rw [if_neg (by simp [h])] at hf
      simp [processPerms, h, ih hf]

/-! ## Claim C1 -/

/-- Claim C1 as stated is false on the code: in the spec's scenario the
internal grantee `b@org.com` does not match the source's hard-coded
organization suffixes (`@domain.com`, `@ext.domain.com`, line 58), so in
active mode `process_file` issues two delete calls, not one, and reports both
emails as external. -/
theorem c1_counterexample :
    (process_file delOk fileScenario true).2 = [("f1", "p1"), ("f1", "p2")] ∧
    (process_file delOk fileScenario true).2.length ≠ 1 ∧
    (process_file delOk fileScenario true).1 =
      .ok { name := "Unknown", link := "Unknown",
            external_emails := "a@external.com, b@org.com",
            permissions_revoked := true } := by
  decide

/-- Claim C1 amended: in dry-run mode `process_file` issues no delete call
regardless of the file's grants; in active mode (with the remote deletes
succeeding) it issues exactly one delete call per permission of type `user`
whose email fails `is_allbirds_email`, in order.  In the spec's scenario with
the internal grantee on the code's actual organization domain
(`b@domain.com`), exactly one delete call is made, for the `a@external.com`
permission, and the report has `external_emails = "a@external.com"` and
`permissions_revoked = true`. -/
theorem c1_amended :
    (∀ (del : String → String → Except PyErr Unit) (file : DriveItem),
      (process_file del file false).2 = []) ∧
    (∀ file : DriveItem, (process_file delOk file true).2 =
      (file.permissions.filter isExternalUser).map (fun p => (file.id, p.id))) ∧
    (process_file delOk fileScenarioAmended true).2 = [("f1", "p1")] ∧
    (process_file delOk fileScenarioAmended true).1 =
      .ok { name := "Unknown", link := "Unknown",
            external_emails := "a@external.com",
            permissions_revoked := true } := by
  refine ⟨fun del file => ?_, fun file => ?_, by decide, by decide⟩
  · simp [process_file, processPerms_dry]
  · simp [process_file, processPerms_revokeOk]

/-! ## Claim C3 -/

/-- Claim C3 fails on the code as written: the module never imports `time`
(source lines 1-9), so the backoff path raises `NameError` at the first
`time.sleep` call (line 34) instead of sleeping.  On an operation that fails
transiently twice and then succeeds, the wrapper as written performs no sleep
and raises `NameError`; with the missing import supplied (the spec's clear
intent), it performs exactly the two backoff sleeps 1s and 2s and returns the
operation's successful result. -/
theorem c3_sleep_name_error :
    exponential_backoff opTransientTwice = (.error .nameErr, []) ∧
    exponential_backoff_spec opTransientTwice = (.ok 42, [1, 2]) := by
  decide

/-! ## Claim C6 -/

/-- Claim C6's non-transient half holds: a first-attempt failure whose
status is not in the transient class propagates with no sleep and no further
attempt (the result does not depend on the operation's later attempts), in
the module as written and equally with the sleep repaired.  Its
transient-exhaustion half is broken by the missing `time` import: an
operation failing transiently on every attempt makes the wrapper raise
`NameError` during the first sleep instead of retrying; with the import
supplied, the wrapper sleeps 1,2,4,8 seconds and re-raises the final
attempt's failure unchanged (status 503 below, distinguishing it from the
earlier 429s). -/
theorem c6_propagation (op : Nat → Except PyErr Nat) (s : Nat)
    (hs : s ∉ transientCodes) (h0 : op 0 = .error (.http s)) :
    exponential_backoff op = (.error (.http s), []) ∧
    exponential_backoff_spec op = (.error (.http s), []) ∧
    exponential_backoff opAlways429 = (.error .nameErr, []) ∧
    exponential_backoff_spec opExhaust = (.error (.http 503), [1, 2, 4, 8]) := by
  refine ⟨?_, ?_, by decide, by decide⟩
  · rw [exponential_backoff, backoffLoop, h0]
    simp [hs]
  · rw [exponential_backoff_spec, backoffLoop, h0]
    simp [hs]

/-- Witness for `c6_propagation` at the concrete non-transient status 404. -/
theorem c6_witness :
    404 ∉ transientCodes ∧
      exponential_backoff opNotFound = (.error (.http 404), []) :=
  ⟨by decide, (c6_propagation opNotFound 404 (by decide) (by decide)).1⟩

/-! ## Claim C7 -/

/-- Claim C7 holds: `is_allbirds_email` returns `true` iff the lowercased
email ends with one of the organization domain suffixes (the refinement is
stated against `orgSuffixes`, the spec's "configured suffixes"); the empty
string is classified as external rather than raising; and the outcome depends
only on the lowercased string (case-insensitivity). -/
theorem c7_classifier :
    is_allbirds_email "" = false ∧
    (∀ e, is_allbirds_email e =
      orgSuffixes.any (fun suf => pyEndswith (pyLower e) suf)) ∧
    (∀ e₁ e₂, pyLower e₁ = pyLower e₂ →
      is_allbirds_email e₁ = is_allbirds_email e₂) := by
  refine ⟨by decide, fun e => ?_, fun e₁ e₂ h => ?_⟩
  · simp [is_allbirds_email, orgSuffixes]
  · simp only [is_allbirds_email, h]

/-- Witness for `c7_classifier`: two spellings of the same address differing
only in case classify identically. -/
theorem c7_witness :
    pyLower "A@Domain.COM" = pyLower "a@domain.com" ∧
      is_allbirds_email "A@Domain.COM" = is_allbirds_email "a@domain.com" :=
  ⟨by decide, c7_classifier.2.2 "A@Domain.COM" "a@domain.com" (by decide)⟩

/-! ## Claim C8 -/

/-- The folder-contents loop concatenates every page onto the accumulator. -/
theorem folderListLoop_eq (pages : List (List DriveItem))
    (acc : List DriveItem) :
    folderListLoop pages acc = acc ++ pages.flatten := by
  induction pages generalizing acc with
  | nil => simp [folderListLoop]
  | cons page rest ih => simp [folderListLoop, ih]

/-- With the falsy limit `0`, the shared-items loop concatenates every page
onto the accumulator. -/
theorem sharedListLoop_zero (pages : List (List DriveItem))
    (acc : List DriveItem) :
    sharedListLoop 0 pages acc = acc ++ pages.flatten := by
  induction pages generalizing acc with
  | nil => simp [sharedListLoop]
  | cons page rest ih => simp [sharedListLoop, ih]

/-- With a nonzero limit and the accumulator still below it, the shared-items
loop returns the first `limit` items of the full concatenation (cutting off
as soon as a page pushes the count to the limit). -/
theorem sharedListLoop_pos (limit : Nat) (hl : limit ≠ 0)
    (pages : List (List DriveItem)) :
    ∀ acc : List DriveItem, acc.length < limit →
      sharedListLoop limit pages acc = (acc ++ pages.flatten).take limit := by
  induction pages with
  | nil =>
    intro acc hacc
    simp [sharedListLoop, List.take_of_length_le (Nat.le_of_lt hacc)]
  | cons page rest ih =>
    intro acc hacc
    by_cases hc : limit ≤ (acc ++ page).length
    · rw [sharedListLoop, if_pos ⟨hl, hc⟩]
      rw [List.flatten_cons, ← List.append_assoc,
        List.take_append_of_le_length hc]
    · rw [sharedListLoop, if_neg (by tauto)]
      rw [ih (acc ++ page) (by omega), List.append_assoc]
      simp

/-- Claim C8 as stated is false on the code: with a nonzero limit,
`get_shared_files_and_folders` stops as soon as the accumulated count reaches
the limit and does not follow the remaining continuation token, so on two
one-item pages with `limit = 1` the result is the first page only, not the
concatenation of all pages. -/
theorem c8_counterexample :
    get_shared_files_and_folders [[plainFile "a"], [plainFile "b"]] 1 =
      [plainFile "a"] ∧
    get_shared_files_and_folders [[plainFile "a"], [plainFile "b"]] 1 ≠
      ([[plainFile "a"], [plainFile "b"]] : List (List DriveItem)).flatten := by
  decide

/-- Claim C8 amended: every folder-contents listing follows all continuation
tokens and equals the concatenation of all pages' items in page order; the
root shared-items listing does too when its limit is `0` (falsy), and
otherwise returns the first `limit` items of that concatenation, stopping at
the first page where the accumulated count reaches the limit. -/
theorem c8_amended :
    (∀ pages, get_folder_contents pages = pages.flatten) ∧
    (∀ pages limit, get_shared_files_and_folders pages limit =
      if limit = 0 then pages.flatten else pages.flatten.take limit) := by
  constructor
  · intro pages
    simp [get_folder_contents, folderListLoop_eq]
  · intro pages limit
    by_cases hl : limit = 0
    · simp [get_shared_files_and_folders, hl, sharedListLoop_zero]
    · rw [get_shared_files_and_folders,
        sharedListLoop_pos limit hl pages []
          (by simpa using Nat.pos_of_ne_zero hl), if_neg hl]
      simp

/-! ## Lemmas about the main audit loop -/

/-- When the audit loop of `main` completes without an exception, it has
produced exactly one report per file. -/
theorem mainLoop_ok_length (del : String → String → Except PyErr Unit)
    (revoke : Bool) :
    ∀ (files : List DriveItem) (reports : List FileReport),
      (mainLoop del revoke files).1 = .ok reports →
      reports.length = files.length := by
  intro files
  induction files with
  | nil =>
    intro reports h
    simp [mainLoop] at h
    simp [← h]
  | cons file rest ih =>
    intro reports h
    simp only [mainLoop] at h
    cases hw : (wrappedProcessFile del file revoke).1 with
    | error e => rw [hw] at h; simp at h
    | ok rep =>
      rw [hw] at h
      cases hm : (mainLoop del revoke rest).1 with
      | error e => rw [hm] at h; simp at h
      | ok reps =>
        rw [hm] at h
        simp at h
        rw [← h]
        simp [ih reps hm]

/-! ## Claim C2 -/

/-- Claim C2 as stated is false on the code: with revocation enabled, a
non-transient `HttpError` (404) on deleting the first permission of the first
file propagates out of `process_file`, is caught only by `main`'s top-level
handler, and the run ends with no report at all — the same file's second
external grant and the entire second file are never audited, and the
accumulated results are discarded rather than emitted. -/
theorem c2_counterexample :
    (mainRun del404 [gFail1, gFail2] true).1 = .ok none ∧
    (mainRun del404 [gFail1, gFail2] true).2 = [("f1", "p1")] := by
  decide

/-- Claim C2 amended: a failure auditing or revoking one permission aborts
the item's remaining permissions and all subsequent items.  An `HttpError`
surviving the retry wrapper ends the run via `main`'s top-level handler with
no report emitted, and no delete call beyond the failing file's is issued;
a report, when emitted at all, is complete — one entry per file, never a
partial accumulation. -/
theorem c2_amended :
    (∀ (del : String → String → Except PyErr Unit) (revoke : Bool)
       (file : DriveItem) (rest : List DriveItem) (s : Nat),
      (wrappedProcessFile del file revoke).1 = .error (.http s) →
      (mainRun del (file :: rest) revoke).1 = .ok none ∧
      (mainRun del (file :: rest) revoke).2 =
        (wrappedProcessFile del file revoke).2) ∧
    (∀ (del : String → String → Except PyErr Unit) (revoke : Bool)
       (files : List DriveItem) (reports : List FileReport),
      (mainRun del files revoke).1 = .ok (some reports) →
      reports.length = files.length) := by
  constructor
  · intro del revoke file rest s hw
    have hm : mainLoop del revoke (file :: rest) =
        (.error (.http s), (wrappedProcessFile del file revoke).2) := by
      simp only [mainLoop]
      rw [hw]
    constructor <;> simp [mainRun, hm]
  · intro del revoke files reports h
    simp only [mainRun] at h
    cases hm : (mainLoop del revoke files).1 with
    | ok r =>
      rw [hm] at h
      simp at h
      exact h ▸ mainLoop_ok_length del revoke files r hm
    | error e =>
      rw [hm] at h
      cases e <;> simp at h

/-- Witness for `c2_amended` on the concrete failing run. -/
theorem c2_witness :
    (mainRun del404 (gFail1 :: [gFail2]) true).1 = .ok none ∧
    (mainRun del404 (gFail1 :: [gFail2]) true).2 =
      (wrappedProcessFile del404 gFail1 true).2 :=
  c2_amended.1 del404 true gFail1 [gFail2] 404 (by decide)

/-! ## Claim C9 -/

/-- Claim C9 holds: `process_file` produces exactly one report per file even
with no external grants (in particular with no permissions at all) — the
report then has an empty external-emails field and `permissions_revoked =
false` — and a completed audit loop yields exactly one report per file. -/
theorem c9_one_report :
    (∀ (del : String → String → Except PyErr Unit) (file : DriveItem)
       (revoke : Bool),
      file.permissions.filter isExternalUser = [] →
      process_file del file revoke =
        (.ok { name := file.name.getD "Unknown",
               link := file.webViewLink.getD "Unknown",
               external_emails := "", permissions_revoked := false }, [])) ∧
    (∀ (del : String → String → Except PyErr Unit) (revoke : Bool)
       (files : List DriveItem) (reports : List FileReport),
      (mainLoop del revoke files).1 = .ok reports →
      reports.length = files.length) := by
  constructor
  · intro del file revoke hf
    have h := processPerms_noExt del file.id revoke file.permissions [] false hf
    simp [process_file, h]
    rfl
  · exact fun del revoke files reports h =>
      mainLoop_ok_length del revoke files reports h

/-- Witness for `c9_one_report`: a file whose only grant is internal gets the
empty report, and a one-file run yields exactly one report. -/
theorem c9_witness :
    gInternal.permissions.filter isExternalUser = [] ∧
    process_file delOk gInternal false =
      (.ok { name := "internal", link := "li", external_emails := "",
             permissions_revoked := false }, []) ∧
    ([({ name := "internal", link := "li",
         external_emails := "", permissions_revoked := false } :
        FileReport)]).length = [gInternal].length :=
  ⟨by decide, c9_one_report.1 delOk gInternal false (by decide),
    c9_one_report.2 delOk false [gInternal]
      [{ name := "internal", link := "li",
         external_emails := "", permissions_revoked := false }] (by decide)⟩

/-! ## Claim C10 -/

/-- Claim C10 holds: a permission of type `user` with no email address field
is classified as external (its email defaults to `""`, which fails the
domain classifier); in active mode a delete call is issued for it, and the
empty string enters the external-emails list, appearing as an empty entry in
the comma-joined report field (`"a@external.com, "` below). -/
theorem c10_no_email_external :
    (∀ p : Permission, p.type = some "user" → p.emailAddress = none →
      isExternalUser p = true) ∧
    (∀ (file : DriveItem) (p : Permission), p ∈ file.permissions →
      isExternalUser p = true →
      (file.id, p.id) ∈ (process_file delOk file true).2) ∧
    (∀ (file : DriveItem) (rep : FileReport),
      (process_file delOk file true).1 = .ok rep →
      rep.external_emails = String.intercalate ", "
        ((file.permissions.filter isExternalUser).map
          (fun p => p.emailAddress.getD ""))) ∧
    process_file delOk gNoEmail true =
      (.ok { name := "Unknown", link := "Unknown",
             external_emails := "a@external.com, ",
             permissions_revoked := true },
       [("fx", "pa"), ("fx", "pb")]) := by
  refine ⟨fun p h1 h2 => ?_, fun file p hmem hext => ?_,
    fun file rep h => ?_, by decide⟩
  · simp [isExternalUser, h1, h2]
    decide
  · simp only [process_file, processPerms_revokeOk]
    exact List.mem_map.mpr ⟨p, List.mem_filter.mpr ⟨hmem, hext⟩, rfl⟩
  · simp only [process_file, processPerms_revokeOk] at h
    simp at h
    rw [← h]

/-- Witness for `c10_no_email_external` at the concrete email-less
permission `pb` of `gNoEmail`. -/
theorem c10_witness :
    isExternalUser { id := "pb", type := some "user", emailAddress := none } =
      true ∧
    ("fx", "pb") ∈ (process_file delOk gNoEmail true).2 :=
  ⟨c10_no_email_external.1 _ rfl rfl,
    c10_no_email_external.2.1 gNoEmail
      { id := "pb", type := some "user", emailAddress := none }
      (by decide) (c10_no_email_external.1 _ rfl rfl)⟩

/-! ## Lemmas about the traversal -/

/-- The visited set only grows: whatever `travLoop` returns contains the
visited set it was given. -/
theorem travLoop_mono (srv : List (String × List DriveItem)) (limit : Nat) :
    ∀ fuel items acc processed res p' tr,
      travLoop srv limit fuel items acc processed = some (res, p', tr) →
      processed ⊆ p' := by
  intro fuel items acc processed
  induction fuel, items, acc, processed using travLoop.induct with
  | srv => exact srv
  | limit => exact limit
  | case1 x all_files processed =>
    intro res p' tr h
    simp only [travLoop, Option.some.injEq, Prod.mk.injEq] at h
    exact h.2.1 ▸ Finset.Subset.refl _
  | case2 item2 rest2 acc2 pset2 =>
    intro res p' tr h
    simp [travLoop] at h
  | case3 fuel item rest all_files processed hmem ih =>
    intro res p' tr h
    simp only [travLoop, if_pos hmem] at h
    exact ih res p' tr h
  | case4 fuel item rest all_files processed hmem p1 hfold hnone ih =>
    intro res p' tr h
    simp [travLoop, hmem, hfold, hnone] at h
  | case5 fuel item rest all_files processed hmem p1 hfold res3 p3 tr3 hsome accv hlim ih =>
    intro res p' tr h
    simp only [travLoop, if_neg hmem, if_pos hfold, hsome,
      if_pos hlim, Option.some.injEq, Prod.mk.injEq] at h
    obtain ⟨-, hp, -⟩ := h
    exact hp ▸ Finset.Subset.trans (Finset.subset_insert _ _) (ih res3 p3 tr3 hsome)
  | case6 fuel item rest all_files processed hmem p1 hfold res3 p3 tr3 hsome accv hlim hnone ih1 ih2 =>
    intro res p' tr h
    simp only [travLoop, if_neg hmem, if_pos hfold, hsome,
      if_neg hlim, hnone] at h
    exact Option.noConfusion h
  | case7 fuel item rest all_files processed hmem p1 hfold res3 p3 tr3 hsome accv hlim res4 p4 tr4 hsome2 ih1 ih2 =>
    intro res p' tr h
    simp only [travLoop, if_neg hmem, if_pos hfold, hsome,
      if_neg hlim, hsome2, Option.some.injEq, Prod.mk.injEq] at h
    obtain ⟨-, hp, -⟩ := h
    exact hp ▸ Finset.Subset.trans (Finset.subset_insert _ _)
      (Finset.Subset.trans (ih1 res3 p3 tr3 hsome) (ih2 res4 p4 tr4 hsome2))
  | case8 fuel item rest all_files processed hmem hfold accv hlim =>
    intro res p' tr h
    simp only [travLoop, if_neg hmem, if_neg hfold, if_pos hlim,
      Option.some.injEq, Prod.mk.injEq] at h
    obtain ⟨-, hp, -⟩ := h
    exact hp ▸ Finset.subset_insert _ _
  | case9 fuel item rest all_files processed hmem p1 hfold accv hlim hnone ih =>
    intro res p' tr h
    simp only [travLoop, if_neg hmem, if_neg hfold, if_neg hlim, hnone] at h
    exact Option.noConfusion h
  | case10 fuel item rest all_files processed hmem p1 hfold accv hlim res4 p4 tr4 hsome2 ih =>
    intro res p' tr h
    simp only [travLoop, if_neg hmem, if_neg hfold, if_neg hlim, hsome2,
      Option.some.injEq, Prod.mk.injEq] at h
    obtain ⟨-, hp, -⟩ := h
    exact hp ▸ Finset.Subset.trans (Finset.subset_insert _ _) (ih res4 p4 tr4 hsome2)

/-- The trace of the empty run lists no folder descent. -/
theorem descendsOf_nil : descendsOf [] = [] := rfl

theorem descendsOf_descend (i : String) (tr : List TraceEv) :
    descendsOf (.descend i :: tr) = i :: descendsOf tr := rfl

theorem descendsOf_appendFile (i : String) (tr : List TraceEv) :
    descendsOf (.appendFile i :: tr) = descendsOf tr := rfl

theorem descendsOf_append (tr1 tr2 : List TraceEv) :
    descendsOf (tr1 ++ tr2) = descendsOf tr1 ++ descendsOf tr2 :=
  List.filterMap_append _ _ _

theorem travLoop_inv (srv : List (String × List DriveItem)) (limit : Nat) :
    ∀ fuel items acc processed res p' tr,
      travLoop srv limit fuel items acc processed = some (res, p', tr) →
      (((acc.map DriveItem.id).Nodup → (∀ a ∈ acc, a.id ∈ processed) →
        ((res.map DriveItem.id).Nodup ∧
          ∀ a ∈ res, a.id ∈ p' ∧ (a ∈ acc ∨ a.id ∉ processed))) ∧
       ((descendsOf tr).Nodup ∧ ∀ d ∈ descendsOf tr, d ∈ p' ∧ d ∉ processed)) := by
  intro fuel items acc processed
  induction fuel, items, acc, processed using travLoop.induct with
  | srv => exact srv
  | limit => exact limit
  | case1 x all_files processed =>
    intro res p' tr h
    simp only [travLoop, Option.some.injEq, Prod.mk.injEq] at h
    obtain ⟨h1, h2, h3⟩ := h
    subst h1; subst h2; subst h3
    exact ⟨fun hnd hin => ⟨hnd, fun a ha => ⟨hin a ha, Or.inl ha⟩⟩,
      by simp [descendsOf_nil]⟩
  | case2 item2 rest2 acc2 pset2 =>
    intro res p' tr h
    simp [travLoop] at h
  | case3 fuel item rest all_files processed hmem ih =>
    intro res p' tr h
    simp only [travLoop, if_pos hmem] at h
    exact ih res p' tr h
  | case4 fuel item rest all_files processed hmem p1 hfold hnone ih =>
    intro res p' tr h
    simp [travLoop, hmem, hfold, hnone] at h
  | case5 fuel item rest all_files processed hmem p1 hfold res3 p3 tr3 hsome accv hlim ih =>
    intro res p' tr h
    simp only [travLoop, if_neg hmem, if_pos hfold, hsome,
      if_pos hlim, Option.some.injEq, Prod.mk.injEq] at h
    obtain ⟨h1, h2, h3⟩ := h
    subst h1; subst h2; subst h3
    have hmono : p1 ⊆ p3 :=
      travLoop_mono srv limit fuel (folderContents srv item.id) [] p1
        res3 p3 tr3 hsome
    have hinner := ih res3 p3 tr3 hsome
    have hsub := hinner.1 (by simp) (by simp)
    have hd := hinner.2
    constructor
    · intro hnd hin
      have hnd2 : ((all_files ++ res3).map DriveItem.id).Nodup := by
        rw [List.map_append, List.nodup_append]
        refine ⟨hnd, hsub.1, fun x hx1 hx2 => ?_⟩
        obtain ⟨a, ha, rfl⟩ := List.mem_map.mp hx1
        obtain ⟨b, hb, hab⟩ := List.mem_map.mp hx2
        have hbp1 : b.id ∉ p1 := by simpa using (hsub.2 b hb).2
        exact hbp1 (hab ▸ Finset.subset_insert _ _ (hin a ha))
      constructor
      · rw [List.map_take]
        exact List.Nodup.sublist (List.take_sublist _ _) hnd2
      · intro a ha
        have ha' : a ∈ all_files ++ res3 := List.take_subset _ _ ha
        rcases List.mem_append.mp ha' with hA | hB
        · exact ⟨hmono (Finset.subset_insert _ _ (hin a hA)), Or.inl hA⟩
        · have hb := hsub.2 a hB
          have hnp1 : a.id ∉ p1 := by simpa using hb.2
          exact ⟨hb.1, Or.inr fun hc => hnp1 (Finset.subset_insert _ _ hc)⟩
    · rw [descendsOf_descend]
      constructor
      · exact List.nodup_cons.mpr
          ⟨fun hc => (hd.2 _ hc).2 (Finset.mem_insert_self _ _), hd.1⟩
      · intro d hdm
        rcases List.mem_cons.mp hdm with rfl | hdm'
        · exact ⟨hmono (Finset.mem_insert_self _ _), hmem⟩
        · obtain ⟨hdp, hdnp⟩ := hd.2 d hdm'
          exact ⟨hdp, fun hc => hdnp (Finset.subset_insert _ _ hc)⟩
  | case6 fuel item rest all_files processed hmem p1 hfold res3 p3 tr3 hsome accv hlim hnone ih1 ih2 =>
    intro res p' tr h
    simp only [travLoop, if_neg hmem, if_pos hfold, hsome,
      if_neg hlim, hnone] at h
    exact Option.noConfusion h
  | case7 fuel item rest all_files processed hmem p1 hfold res3 p3 tr3 hsome accv hlim res4 p4 tr4 hsome2 ih1 ih2 =>
    intro res p' tr h
    simp only [travLoop, if_neg hmem, if_pos hfold, hsome,
      if_neg hlim, hsome2, Option.some.injEq, Prod.mk.injEq] at h
    obtain ⟨h1, h2, h3⟩ := h
    subst h1; subst h2; subst h3
    have hmono1 : p1 ⊆ p3 :=
      travLoop_mono srv limit fuel (folderContents srv item.id) [] p1
        res3 p3 tr3 hsome
    have hmono2 : p3 ⊆ p4 :=
      travLoop_mono srv limit fuel rest accv p3 res4 p4 tr4 hsome2
    have hinner := ih1 res3 p3 tr3 hsome
    have hsub := hinner.1 (by simp) (by simp)
    have hd1 := hinner.2
    have hrest := ih2 res4 p4 tr4 hsome2
    have hd2 := hrest.2
    constructor
    · intro hnd hin
      have hnd2 : ((all_files ++ res3).map DriveItem.id).Nodup := by
        rw [List.map_append, List.nodup_append]
        refine ⟨hnd, hsub.1, fun x hx1 hx2 => ?_⟩
        obtain ⟨a, ha, rfl⟩ := List.mem_map.mp hx1
        obtain ⟨b, hb, hab⟩ := List.mem_map.mp hx2
        have hbp1 : b.id ∉ p1 := by simpa using (hsub.2 b hb).2
        exact hbp1 (hab ▸ Finset.subset_insert _ _ (hin a ha))
      have hin2 : ∀ a ∈ all_files ++ res3, a.id ∈ p3 := by
        intro a ha
        rcases List.mem_append.mp ha with hA | hB
        · exact hmono1 (Finset.subset_insert _ _ (hin a hA))
        · exact (hsub.2 a hB).1
      have hmain := hrest.1 hnd2 hin2
      refine ⟨hmain.1, fun a ha => ?_⟩
      obtain ⟨hip, hcase⟩ := hmain.2 a ha
      refine ⟨hip, ?_⟩
      rcases hcase with hacc | hnp3
      · rcases List.mem_append.mp hacc with hA | hB
        · exact Or.inl hA
        · have hnp1 : a.id ∉ p1 := by simpa using (hsub.2 a hB).2
          exact Or.inr fun hc => hnp1 (Finset.subset_insert _ _ hc)
      · exact Or.inr fun hc => hnp3 (hmono1 (Finset.subset_insert _ _ hc))
    · rw [descendsOf_descend, descendsOf_append]
      constructor
      · rw [List.nodup_cons, List.nodup_append]
        refine ⟨fun hc => ?_, hd1.1, hd2.1, fun d hdm1 hdm2 => ?_⟩
        · rcases List.mem_append.mp hc with h1 | h2
          · exact (hd1.2 _ h1).2 (Finset.mem_insert_self _ _)
          · exact (hd2.2 _ h2).2 (hmono1 (Finset.mem_insert_self _ _))
        · exact (hd2.2 d hdm2).2 (hd1.2 d hdm1).1
      · intro d hdm
        rcases List.mem_cons.mp hdm with rfl | hdm'
        · exact ⟨hmono2 (hmono1 (Finset.mem_insert_self _ _)), hmem⟩
        · rcases List.mem_append.mp hdm' with h1 | h2
          · exact ⟨hmono2 (hd1.2 d h1).1,
              fun hc => (hd1.2 d h1).2 (Finset.subset_insert _ _ hc)⟩
          · exact ⟨(hd2.2 d h2).1,
              fun hc => (hd2.2 d h2).2 (hmono1 (Finset.subset_insert _ _ hc))⟩
  | case8 fuel item rest all_files processed hmem hfold accv hlim =>
    intro res p' tr h
    simp only [travLoop, if_neg hmem, if_neg hfold, if_pos hlim,
      Option.some.injEq, Prod.mk.injEq] at h
    obtain ⟨h1, h2, h3⟩ := h
    subst h1; subst h2; subst h3
    constructor
    · intro hnd hin
      have hnd2 : ((all_files ++ [item]).map DriveItem.id).Nodup := by
        rw [List.map_append, List.nodup_append]
        refine ⟨hnd, by simp, fun x hx1 hx2 => ?_⟩
        obtain ⟨a, ha, rfl⟩ := List.mem_map.mp hx1
        simp at hx2
        exact hmem (hx2 ▸ hin a ha)
      constructor
      · rw [List.map_take]
        exact List.Nodup.sublist (List.take_sublist _ _) hnd2
      · intro a ha
        have ha' : a ∈ all_files ++ [item] := List.take_subset _ _ ha
        rcases List.mem_append.mp ha' with hA | hB
        · exact ⟨Finset.subset_insert _ _ (hin a hA), Or.inl hA⟩
        · simp at hB
          subst hB
          exact ⟨Finset.mem_insert_self _ _, Or.inr hmem⟩
    · simp [descendsOf_appendFile, descendsOf_nil]
  | case9 fuel item rest all_files processed hmem p1 hfold accv hlim hnone ih =>
    intro res p' tr h
    simp only [travLoop, if_neg hmem, if_neg hfold, if_neg hlim, hnone] at h
    exact Option.noConfusion h
  | case10 fuel item rest all_files processed hmem p1 hfold accv hlim res4 p4 tr4 hsome2 ih =>
    intro res p' tr h
    simp only [travLoop, if_neg hmem, if_neg hfold, if_neg hlim, hsome2,
      Option.some.injEq, Prod.mk.injEq] at h
    obtain ⟨h1, h2, h3⟩ := h
    subst h1; subst h2; subst h3
    have hrest := ih res4 p4 tr4 hsome2
    have hd2 := hrest.2
    constructor
    · intro hnd hin
      have hnd2 : ((all_files ++ [item]).map DriveItem.id).Nodup := by
        rw [List.map_append, List.nodup_append]
        refine ⟨hnd, by simp, fun x hx1 hx2 => ?_⟩
        obtain ⟨a, ha, rfl⟩ := List.mem_map.mp hx1
        simp at hx2
        exact hmem (hx2 ▸ hin a ha)
      have hin2 : ∀ a ∈ all_files ++ [item], a.id ∈ p1 := by
        intro a ha
        rcases List.mem_append.mp ha with hA | hB
        · exact Finset.subset_insert _ _ (hin a hA)
        · simp at hB
          subst hB
          exact Finset.mem_insert_self _ _
      have hmain := hrest.1 hnd2 hin2
      refine ⟨hmain.1, fun a ha => ?_⟩
      obtain ⟨hip, hcase⟩ := hmain.2 a ha
      refine ⟨hip, ?_⟩
      rcases hcase with hacc | hnp1
      · rcases List.mem_append.mp hacc with hA | hB
        · exact Or.inl hA
        · simp at hB
          subst hB
          exact Or.inr hmem
      · exact Or.inr fun hc => hnp1 (Finset.subset_insert _ _ hc)
    · rw [descendsOf_appendFile]
      exact ⟨hd2.1, fun d hdm => ⟨(hd2.2 d hdm).1,
        fun hc => (hd2.2 d hdm).2 (Finset.subset_insert _ _ hc)⟩⟩

theorem travLoop_length (srv : List (String × List DriveItem)) (limit : Nat)
    (hl : limit ≠ 0) :
    ∀ fuel items acc processed res p' tr,
      travLoop srv limit fuel items acc processed = some (res, p', tr) →
      acc.length < limit → res.length ≤ limit := by
  intro fuel items acc processed
  induction fuel, items, acc, processed using travLoop.induct with
  | srv => exact srv
  | limit => exact limit
  | case1 x all_files processed =>
    intro res p' tr h hacc
    simp only [travLoop, Option.some.injEq, Prod.mk.injEq] at h
    exact h.1 ▸ Nat.le_of_lt hacc
  | case2 item2 rest2 acc2 pset2 =>
    intro res p' tr h
    simp [travLoop] at h
  | case3 fuel item rest all_files processed hmem ih =>
    intro res p' tr h hacc
    simp only [travLoop, if_pos hmem] at h
    exact ih res p' tr h hacc
  | case4 fuel item rest all_files processed hmem p1 hfold hnone ih =>
    intro res p' tr h hacc
    simp [travLoop, hmem, hfold, hnone] at h
  | case5 fuel item rest all_files processed hmem p1 hfold res3 p3 tr3 hsome accv hlim ih =>
    intro res p' tr h hacc
    simp only [travLoop, if_neg hmem, if_pos hfold, hsome,
      if_pos hlim, Option.some.injEq, Prod.mk.injEq] at h
    rw [← h.1, List.length_take]
    exact min_le_left _ _
  | case6 fuel item rest all_files processed hmem p1 hfold res3 p3 tr3 hsome accv hlim hnone ih1 ih2 =>
    intro res p' tr h hacc
    simp only [travLoop, if_neg hmem, if_pos hfold, hsome,
      if_neg hlim, hnone] at h
    exact Option.noConfusion h
  | case7 fuel item rest all_files processed hmem p1 hfold res3 p3 tr3 hsome accv hlim res4 p4 tr4 hsome2 ih1 ih2 =>
    intro res p' tr h hacc
    simp only [travLoop, if_neg hmem, if_pos hfold, hsome,
      if_neg hlim, hsome2, Option.some.injEq, Prod.mk.injEq] at h
    have haccv : accv.length < limit := by
      rcases Nat.lt_or_ge accv.length limit with h' | h'
      · exact h'
      · exact absurd ⟨hl, h'⟩ hlim
    exact h.1 ▸ ih2 res4 p4 tr4 hsome2 haccv
  | case8 fuel item rest all_files processed hmem hfold accv hlim =>
    intro res p' tr h hacc
    simp only [travLoop, if_neg hmem, if_neg hfold, if_pos hlim,
      Option.some.injEq, Prod.mk.injEq] at h
    rw [← h.1, List.length_take]
    exact min_le_left _ _
  | case9 fuel item rest all_files processed hmem p1 hfold accv hlim hnone ih =>
    intro res p' tr h hacc
    simp only [travLoop, if_neg hmem, if_neg hfold, if_neg hlim, hnone] at h
    exact Option.noConfusion h
  | case10 fuel item rest all_files processed hmem p1 hfold accv hlim res4 p4 tr4 hsome2 ih =>
    intro res p' tr h hacc
    simp only [travLoop, if_neg hmem, if_neg hfold, if_neg hlim, hsome2,
      Option.some.injEq, Prod.mk.injEq] at h
    have haccv : accv.length < limit := by
      rcases Nat.lt_or_ge accv.length limit with h' | h'
      · exact h'
      · exact absurd ⟨hl, h'⟩ hlim
    exact h.1 ▸ ih res4 p4 tr4 hsome2 haccv

theorem idsOf_cons (item : DriveItem) (rest : List DriveItem) :
    idsOf (item :: rest) = insert item.id (idsOf rest) := by
  simp [idsOf]

theorem idsOf_folderContents_subset (srv : List (String × List DriveItem))
    (fid : String) : idsOf (folderContents srv fid) ⊆ srvIds srv := by
  intro x hx
  unfold folderContents at hx
  cases hfind : srv.find? (fun e => e.1 == fid) with
  | none => simp [hfind, idsOf] at hx
  | some e =>
    rw [hfind] at hx
    simp [idsOf] at hx
    obtain ⟨a, ha, rfl⟩ := hx
    have he := List.mem_of_find?_eq_some hfind
    simp only [srvIds, idsOf, List.mem_toFinset, List.mem_map]
    exact ⟨a, List.mem_flatten.mpr ⟨e.2, List.mem_map.mpr ⟨e, he, rfl⟩, ha⟩, rfl⟩

theorem travLoop_isSome (srv : List (String × List DriveItem)) (limit : Nat)
    (U : Finset String) (hsrv : srvIds srv ⊆ U) :
    ∀ fuel items acc processed, idsOf items ⊆ U →
      items.length + travWeight srv U processed < fuel →
      (travLoop srv limit fuel items acc processed).isSome := by
  intro fuel
  induction fuel with
  | zero =>
    intro items acc processed _ h
    exact absurd h (Nat.not_lt_zero _)
  | succ fuel ihf =>
    intro items acc processed hids hcard
    cases items with
    | nil => simp [travLoop]
    | cons item rest =>
      have hidI : item.id ∈ U := hids
        (by rw [idsOf_cons]; exact Finset.mem_insert_self _ _)
      have hrest : idsOf rest ⊆ U := by
        refine Finset.Subset.trans ?_ hids
        rw [idsOf_cons]
        exact Finset.subset_insert _ _
      simp only [List.length_cons] at hcard
      by_cases hmem : item.id ∈ processed
      · simp only [travLoop, if_pos hmem]
        exact ihf rest acc processed hrest (by omega)
      · have hsplit : travWeight srv U processed =
            (1 + (folderContents srv item.id).length) +
              travWeight srv U (insert item.id processed) := by
          have h1 : U \ insert item.id processed =
              (U \ processed).erase item.id := by
            ext x
            simp only [Finset.mem_sdiff, Finset.mem_erase, Finset.mem_insert]
            tauto
          have h2 : item.id ∈ U \ processed :=
            Finset.mem_sdiff.mpr ⟨hidI, hmem⟩
          rw [travWeight, travWeight, h1, ← Finset.add_sum_erase _ _ h2]
        by_cases hfold : item.mimeType = FOLDER_MIME
        · have hinner := ihf (folderContents srv item.id) []
            (insert item.id processed)
            (Finset.Subset.trans (idsOf_folderContents_subset srv item.id) hsrv)
            (by omega)
          obtain ⟨⟨res3, p3, tr3⟩, hsome⟩ := Option.isSome_iff_exists.mp hinner
          have hmono : insert item.id processed ⊆ p3 :=
            travLoop_mono srv limit fuel (folderContents srv item.id) []
              (insert item.id processed) res3 p3 tr3 hsome
          simp only [travLoop, if_neg hmem, if_pos hfold, hsome]
          by_cases hlim : limit ≠ 0 ∧ limit ≤ (acc ++ res3).length
          · rw [if_pos hlim]
            simp
          · rw [if_neg hlim]
            have hW2 : travWeight srv U p3 ≤
                travWeight srv U (insert item.id processed) := by
              apply Finset.sum_le_sum_of_subset
              exact Finset.sdiff_subset_sdiff (Finset.Subset.refl U) hmono
            have hr := ihf rest (acc ++ res3) p3 hrest (by omega)
            obtain ⟨⟨r1, r2, r3⟩, hrr⟩ := Option.isSome_iff_exists.mp hr
            rw [hrr]
            simp
        · simp only [travLoop, if_neg hmem, if_neg hfold]
          by_cases hlim : limit ≠ 0 ∧ limit ≤ (acc ++ [item]).length
          · rw [if_pos hlim]
            simp
          · rw [if_neg hlim]
            have hr := ihf rest (acc ++ [item]) (insert item.id processed)
              hrest (by omega)
            obtain ⟨⟨r1, r2, r3⟩, hrr⟩ := Option.isSome_iff_exists.mp hr
            rw [hrr]
            simp

/-! ## Claim C4 -/

/-- Claim C4 as stated is false on the code: a recursive call receives the
full limit and does not account for files accumulated by enclosing
invocations, so folder-descent listing calls can still be issued after the
overall count has reached the limit.  Concretely, with limit 2, root items
`[file f1, folder A]`, `A = [file f2, folder B]`, `B = [file f3]`: the run
returns the two files `f1, f2`, yet still descends into `B` (a listing call
that contributes nothing), and the trace has a descent event preceded by two
append events — `noLateDescent 2` is violated. -/
theorem c4_counterexample :
    (process_items_recursively srvNested 5 itemsNested ∅ 2).map
        (fun r => noLateDescent 2 0 r.2.2) = some false ∧
    (process_items_recursively srvNested 5 itemsNested ∅ 2).map
        (fun r => (r.1.map DriveItem.id, descendsOf r.2.2)) =
      some (["f1", "f2"], ["A", "B"]) := by
  decide

/-- Claim C4 amended: for every nonzero configured limit `N` the traversal
returns at most `N` file items (each invocation checks the limit after every
item, stopping its own level), but the check is against the invocation-local
accumulator only, so folder-descent calls beyond those needed to reach `N`
may still be issued by inner invocations. -/
theorem c4_at_most_limit :
    ∀ (srv : List (String × List DriveItem)) (fuel : Nat)
      (items : List DriveItem) (processed : Finset String) (limit : Nat)
      (res : List DriveItem),
      limit ≠ 0 →
      (process_items_recursively srv fuel items processed limit).map
          (fun r => r.1) = some res →
      res.length ≤ limit := by
  intro srv fuel items processed limit res hl heq
  cases hrun : process_items_recursively srv fuel items processed limit with
  | none => rw [hrun] at heq; exact Option.noConfusion heq
  | some r =>
    rw [hrun] at heq
    obtain ⟨r1, r2, r3⟩ := r
    simp at heq
    exact heq ▸ travLoop_length srv limit hl fuel items [] processed r1 r2 r3
      hrun (by simpa using Nat.pos_of_ne_zero hl)

/-- Witness for `c4_at_most_limit` on the concrete nested run with limit 2. -/
theorem c4_witness :
    (2 : Nat) ≠ 0 ∧
      ([plainFile "f1", plainFile "f2"] : List DriveItem).length ≤ 2 :=
  ⟨by decide,
    c4_at_most_limit srvNested 5 itemsNested ∅ 2
      [plainFile "f1", plainFile "f2"] (by decide) (by decide)⟩

/-! ## Claim C5 -/

/-- Claim C5 holds: on every folder service — cyclic graphs and items
reachable through several parents included — the traversal completes with
the computable fuel bound `sufficientFuel` (so remote listing calls are
bounded in terms of the distinct reachable identifiers), no file id appears
twice in the result sequence, and no folder id is descended into (listed)
twice: an identifier added to the visited set is never re-expanded. -/
theorem c5_termination_no_revisit :
    ∀ (srv : List (String × List DriveItem)) (items : List DriveItem)
      (limit : Nat),
      ∃ res processed tr,
        process_items_recursively srv (sufficientFuel srv items) items ∅
            limit = some (res, processed, tr) ∧
        (res.map DriveItem.id).Nodup ∧
        (descendsOf tr).Nodup := by
  intro srv items limit
  have hsome := travLoop_isSome srv limit (idsOf items ∪ srvIds srv)
    (fun x hx => Finset.mem_union_right _ hx)
    (sufficientFuel srv items) items [] ∅
    (fun x hx => Finset.mem_union_left _ hx)
    (by rw [sufficientFuel]; omega)
  obtain ⟨⟨res, p2, tr⟩, heq⟩ := Option.isSome_iff_exists.mp hsome
  have hinv := travLoop_inv srv limit (sufficientFuel srv items) items [] ∅
    res p2 tr heq
  exact ⟨res, p2, tr, heq, (hinv.1 (by simp) (by simp)).1, hinv.2.1⟩

end DriveRevoker
